import Mathlib

/-!
Verification of the jujunaut-ai Obsidian plugin (`src/unnamed/part_000`,
with `src/main.ts` as an earlier variant of the same plugin).

The development shallowly embeds the plugin's streaming-response pipeline:

* decoded text is modeled as `List Char` (chunks are taken after UTF-8
  decoding; all counterexamples and theorems about fragmentation place the
  fragment boundaries at code-point boundaries, where a fresh per-chunk
  `TextDecoder` agrees with whole-stream decoding);
* `stripData` models `chunk.replace(/^data: /gm, "")`;
* `drain` models the inner `while` loop that repeatedly splits the carry-over
  buffer at the next newline and feeds each candidate record to `JSON.parse`;
* `jsonParse` is an executable model of `JSON.parse` (recursive descent over
  the JSON grammar, numbers kept as their raw lexemes since no code path
  inspects numeric values);
* `recordInsertText` models the guard
  `json.choices && json.choices.length > 0 && json.choices[0].delta`
  followed by the extraction of `json.choices[0].delta.content`;
* the session state machine (`sessStep`) models the interleaving of the read
  loop with the user-facing `stopStreaming` command.
-/

/-- Decoded text, one JavaScript string, as a list of characters. -/
abbrev Str := List Char

/-! ## Basic string operations used by the source -/

/-- `s.split(sep)` for a one-character separator, JavaScript semantics:
the result is never empty, and separators at the ends yield empty pieces. -/
def splitOnC (sep : Char) : Str → List Str
  | [] => [[]]
  | c :: rest =>
    if c = sep then [] :: splitOnC sep rest
    else
      match splitOnC sep rest with
      | [] => [[c]]
      | l :: ls => (c :: l) :: ls

/-- `parts.join(sep)`, JavaScript semantics. -/
def joinWith (sep : Str) : List Str → Str
  | [] => []
  | [l] => l
  | l :: ls => l ++ sep ++ joinWith sep ls

/-- Drop one leading `"data: "` marker, if present.  This is what the
multiline regex `/^data: /gm` removes at each line start (the regex engine
resumes scanning after the removed marker, so at most one marker is removed
per line). -/
def dropData : Str → Str
  | 'd' :: 'a' :: 't' :: 'a' :: ':' :: ' ' :: rest => rest
  | s => s

/-- `chunk.replace(/^data: /gm, "")`: every line of the chunk loses one
leading `"data: "` marker.  Lines are delimited by `'\n'`; the plugin's
upstream protocol uses bare `'\n'` terminators. -/
def stripData (s : Str) : Str :=
  joinWith ['\n'] ((splitOnC '\n' s).map dropData)

/-- `buffer.indexOf("\n")`, as an `Option` instead of `-1`. -/
def nlIndex : Str → Option Nat
  | [] => none
  | c :: rest => if c = '\n' then some 0 else (nlIndex rest).map (· + 1)

/-! ## An executable model of `JSON.parse`

Numbers are kept as raw lexemes (`JVal.num`): the plugin never reads a
numeric value out of a record, only truthiness (where only zero-ness of the
mantissa matters).  String bodies decode the JSON escapes; `\uXXXX` escapes
are mapped through `Char.ofNat` (surrogate halves, which cannot inhabit
`Char`, fall to the null character — no theorem below depends on them). -/

inductive JVal where
  | null
  | bool (b : Bool)
  | num (raw : Str)
  | str (s : Str)
  | arr (elems : List JVal)
  | obj (members : List (Str × JVal))

/-- JSON insignificant whitespace. -/
def isJsonWs (c : Char) : Bool :=
  c = ' ' || c = '\t' || c = '\n' || c = '\r'

/-- Skip JSON whitespace. -/
def skipWs : Str → Str
  | [] => []
  | c :: rest => if isJsonWs c then skipWs rest else c :: rest

/-- Longest digit run at the front. -/
def spanDigits : Str → Str × Str
  | [] => ([], [])
  | c :: rest =>
    if c.isDigit then
      match spanDigits rest with
      | (ds, r) => (c :: ds, r)
    else ([], c :: rest)

/-- JSON integer part: `0`, or a nonzero digit followed by digits. -/
def parseIntPart : Str → Option (Str × Str)
  | '0' :: rest => some (['0'], rest)
  | c :: rest =>
    if c.isDigit then
      match spanDigits rest with
      | (ds, r) => some (c :: ds, r)
    else none
  | [] => none

/-- Optional JSON fraction part (`.` then one or more digits). -/
def parseFracOpt : Str → Option (Str × Str)
  | '.' :: r =>
    match spanDigits r with
    | ([], _) => none
    | (ds, rest) => some ('.' :: ds, rest)
  | s => some ([], s)

/-- Optional JSON exponent part (`e`/`E`, optional sign, one or more digits). -/
def parseExpOpt : Str → Option (Str × Str)
  | [] => some ([], [])
  | c :: r =>
    if c = 'e' || c = 'E' then
      match r with
      | s :: r2 =>
        if s = '+' || s = '-' then
          match spanDigits r2 with
          | ([], _) => none
          | (ds, rest) => some (c :: s :: ds, rest)
        else
          match spanDigits (s :: r2) with
          | ([], _) => none
          | (ds, rest) => some (c :: ds, rest)
      | [] => none
    else some ([], c :: r)

/-- JSON number after an optional leading minus has been taken. -/
def parseNumTail (s : Str) : Option (Str × Str) :=
  match parseIntPart s with
  | none => none
  | some (ip, s2) =>
    match parseFracOpt s2 with
    | none => none
    | some (fp, s3) =>
      match parseExpOpt s3 with
      | none => none
      | some (ep, s4) => some (ip ++ fp ++ ep, s4)

/-- JSON number (raw lexeme and remaining input). -/
def parseNumber : Str → Option (Str × Str)
  | '-' :: r =>
    match parseNumTail r with
    | some (raw, rest) => some ('-' :: raw, rest)
    | none => none
  | s => parseNumTail s

/-- Hexadecimal digit value. -/
def hexVal (c : Char) : Option Nat :=
  if '0' ≤ c ∧ c ≤ '9' then some (c.toNat - '0'.toNat)
  else if 'a' ≤ c ∧ c ≤ 'f' then some (c.toNat - 'a'.toNat + 10)
  else if 'A' ≤ c ∧ c ≤ 'F' then some (c.toNat - 'A'.toNat + 10)
  else none

/-- Body of a JSON string literal, after the opening quote: the decoded
characters and the input remaining after the closing quote. -/
def parseStringBody : Str → Option (Str × Str)
  | [] => none
  | '"' :: rest => some ([], rest)
  | '\\' :: 'u' :: h1 :: h2 :: h3 :: h4 :: rest =>
    match hexVal h1, hexVal h2, hexVal h3, hexVal h4 with
    | some a, some b, some c, some d =>
      match parseStringBody rest with
      | some (s, r) => some (Char.ofNat (((a * 16 + b) * 16 + c) * 16 + d) :: s, r)
      | none => none
    | _, _, _, _ => none
  | '\\' :: e :: rest =>
    match
      (if e = '"' then some '"'
       else if e = '\\' then some '\\'
       else if e = '/' then some '/'
       else if e = 'b' then some '\x08'
       else if e = 'f' then some '\x0C'
       else if e = 'n' then some '\n'
       else if e = 'r' then some '\r'
       else if e = 't' then some '\t'
       else none) with
    | some c =>
      match parseStringBody rest with
      | some (s, r) => some (c :: s, r)
      | none => none
    | none => none
  | c :: rest =>
    if c.toNat < 32 then none
    else
      match parseStringBody rest with
      | some (s, r) => some (c :: s, r)
      | none => none

/-- What the recursive-descent JSON parser is currently parsing. -/
inductive JTask where
  | value
  | arrItems
  | objItems

/-- Result of one parsing task. -/
inductive JOut where
  | val (v : JVal) (rest : Str)
  | items (vs : List JVal) (rest : Str)
  | fields (ms : List (Str × JVal)) (rest : Str)

/-- Recursive-descent JSON parser.  `fuel` bounds the recursion depth; the
wrapper `jsonParse` supplies fuel that exceeds any derivation depth for its
input (each two units of fuel consume at least one input character). -/
def parseStep : Nat → JTask → Str → Option JOut
  | 0, _, _ => none
  | fuel + 1, JTask.value, s0 =>
    match skipWs s0 with
    | 'n' :: 'u' :: 'l' :: 'l' :: r => some (JOut.val JVal.null r)
    | 't' :: 'r' :: 'u' :: 'e' :: r => some (JOut.val (JVal.bool true) r)
    | 'f' :: 'a' :: 'l' :: 's' :: 'e' :: r => some (JOut.val (JVal.bool false) r)
    | '"' :: r =>
      match parseStringBody r with
      | some (s, rest) => some (JOut.val (JVal.str s) rest)
      | none => none
    | '[' :: r =>
      match skipWs r with
      | ']' :: rest => some (JOut.val (JVal.arr []) rest)
      | r' =>
        match parseStep fuel JTask.arrItems r' with
        | some (JOut.items vs rest) => some (JOut.val (JVal.arr vs) rest)
        | _ => none
    | '\x7b' :: r =>
      match skipWs r with
      | '\x7d' :: rest => some (JOut.val (JVal.obj []) rest)
      | r' =>
        match parseStep fuel JTask.objItems r' with
        | some (JOut.fields ms rest) => some (JOut.val (JVal.obj ms) rest)
        | _ => none
    | s =>
      match parseNumber s with
      | some (raw, rest) => some (JOut.val (JVal.num raw) rest)
      | none => none
  | fuel + 1, JTask.arrItems, s =>
    match parseStep fuel JTask.value s with
    | some (JOut.val v r1) =>
      match skipWs r1 with
      | ',' :: r2 =>
        match parseStep fuel JTask.arrItems r2 with
        | some (JOut.items vs rest) => some (JOut.items (v :: vs) rest)
        | _ => none
      | ']' :: r2 => some (JOut.items [v] r2)
      | _ => none
    | _ => none
  | fuel + 1, JTask.objItems, s =>
    match skipWs s with
    | '"' :: r =>
      match parseStringBody r with
      | some (k, r1) =>
        match skipWs r1 with
        | ':' :: r2 =>
          match parseStep fuel JTask.value r2 with
          | some (JOut.val v r3) =>
            match skipWs r3 with
            | ',' :: r4 =>
              match parseStep fuel JTask.objItems r4 with
              | some (JOut.fields ms rest) => some (JOut.fields ((k, v) :: ms) rest)
              | _ => none
            | '\x7d' :: r4 => some (JOut.fields [(k, v)] r4)
            | _ => none
          | _ => none
        | _ => none
      | none => none
    | _ => none

/-- `JSON.parse`: parse one JSON value and require that only whitespace
remains.  Returns `none` where `JSON.parse` throws. -/
def jsonParse (s : Str) : Option JVal :=
  match parseStep (2 * s.length + 4) JTask.value s with
  | some (JOut.val v rest) => if (skipWs rest).isEmpty then some v else none
  | _ => none

/-! ## Property access and the delta guard

The handler runs
`json.choices && json.choices.length > 0 && json.choices[0].delta`, then
reads `json.choices[0].delta.content` and inserts it (after blockquote
rewriting when that mode is on).  The whole handler sits in a `try` whose
`catch` only logs, so any JavaScript `TypeError` on this path (property
access on `null`, `.split` on a non-string `content`) ends the record's
processing with no insertion — exactly like a falsy guard.  The model below
therefore returns `none` (no insertion) on every path on which the real
handler either skips or throws-and-is-caught.  In plain (non-blockquote)
mode an absent `content` reaches `editor.replaceSelection(undefined)`; the
host editor's change builder treats an undefined insertion as inserting no
text, so that path mutates nothing either. -/

/-- Property lookup in a parsed JSON object; with duplicate keys,
`JSON.parse` keeps the last occurrence. -/
def objGet (ms : List (Str × JVal)) (k : Str) : Option JVal :=
  match ms with
  | [] => none
  | (k', v) :: rest =>
    match objGet rest k with
    | some w => some w
    | none => if k' = k then some v else none

/-- JavaScript property access for the (non-index, non-`length`) property
names the handler uses: defined members of objects; `undefined` (here
`none`) on everything else. -/
def jsGet (v : JVal) (k : Str) : Option JVal :=
  match v with
  | JVal.obj ms => objGet ms k
  | _ => none

/-- Is the mantissa of a JSON number lexeme zero (`0`, `-0`, `0.00e7`, …)? -/
def numIsZero (raw : Str) : Bool :=
  (raw.takeWhile (fun c => c ≠ 'e' ∧ c ≠ 'E')).all
    (fun c => if '1' ≤ c ∧ c ≤ '9' then false else true)

/-- JavaScript truthiness of a parsed JSON value. -/
def jsTruthy : JVal → Bool
  | JVal.null => false
  | JVal.bool b => b
  | JVal.num raw => !numIsZero raw
  | JVal.str s => !s.isEmpty
  | JVal.arr _ => true
  | JVal.obj _ => true

/-- Is a JSON number lexeme strictly positive?  Real-valued semantics of
the lexeme: the sign of a decimal literal is its written sign (double
rounding — a tiny exponent underflowing to `0` — is not modeled; no
theorem below depends on it). -/
def numPositive : Str → Bool
  | '-' :: _ => false
  | raw => !numIsZero raw

/-- Whitespace trimmed by JavaScript's `ToNumber` string coercion (the
common ASCII set). -/
def toNumWs (c : Char) : Bool :=
  c = ' ' || c = '\t' || c = '\n' || c = '\r' || c = '\x0b' || c = '\x0c'

/-- Trim `ToNumber` whitespace from both ends. -/
def toNumTrim (s : Str) : Str :=
  ((s.dropWhile toNumWs).reverse.dropWhile toNumWs).reverse

/-- Is `c` a hexadecimal digit? -/
def isHexDigitC (c : Char) : Bool :=
  (hexVal c).isSome

/-- Validity of an optional exponent part of a string numeric literal
(`e`/`E`, optional sign, one or more digits, nothing after). -/
def expValid : Str → Bool
  | [] => true
  | c :: r =>
    if c = 'e' || c = 'E' then
      match r with
      | s :: r2 =>
        if s = '+' || s = '-' then
          !(spanDigits r2).1.isEmpty && (spanDigits r2).2.isEmpty
        else !(spanDigits (s :: r2)).1.isEmpty && (spanDigits (s :: r2)).2.isEmpty
      | [] => false
    else false

/-- Is an unsigned decimal string numeric literal valid and strictly
positive (`DecimalDigits ('.' DecimalDigits?)? ExponentPart?` or
`'.' DecimalDigits ExponentPart?`, with a nonzero mantissa digit)? -/
def decPositive (t : Str) : Bool :=
  let p1 := spanDigits t
  match p1.2 with
  | '.' :: r =>
    let p2 := spanDigits r
    (!p1.1.isEmpty || !p2.1.isEmpty) && expValid p2.2
      && (p1.1 ++ p2.1).any (fun c => c != '0')
  | r =>
    !p1.1.isEmpty && expValid r && p1.1.any (fun c => c != '0')

/-- Validity and positivity of a non-decimal integer literal body: at least
one digit, all in range, some digit nonzero. -/
def radixPositive (digitOk : Char → Bool) (r : Str) : Bool :=
  !r.isEmpty && r.all digitOk && r.any (fun c => c != '0')

/-- An unsigned string numeric literal, after sign handling: `Infinity`,
`0x`/`0b`/`0o` integers, or a decimal literal. -/
def strNumCorePositive (r : Str) : Bool :=
  if r = ("Infinity").toList then true
  else
    match r with
    | '0' :: x :: rest =>
      if x = 'x' || x = 'X' then radixPositive isHexDigitC rest
      else if x = 'b' || x = 'B' then radixPositive (fun c => c == '0' || c == '1') rest
      else if x = 'o' || x = 'O' then
        radixPositive (fun c => decide ('0' ≤ c) && decide (c ≤ '7')) rest
      else decPositive ('0' :: x :: rest)
    | _ => decPositive r

/-- `ToNumber(s) > 0` for a JavaScript string `s`: trim, reject an empty or
`-`-signed literal (negative or `NaN`, never positive), strip `+`, then
test the unsigned literal.  Invalid literals are `NaN`, hence not
positive. -/
def strNumPositive (s : Str) : Bool :=
  match toNumTrim s with
  | [] => false
  | '-' :: _ => false
  | '+' :: r => strNumCorePositive r
  | r => strNumCorePositive r

mutual

/-- `ToString` of one array element inside `Array.prototype.join`
(`null` joins as the empty string; nested arrays join recursively; objects
stringify as `[object Object]`; number lexemes stand in for the canonical
number string, which is `ToNumber`-equivalent for the positivity test
below). -/
def jsElemStr : JVal → Str
  | JVal.null => []
  | JVal.bool true => ("true").toList
  | JVal.bool false => ("false").toList
  | JVal.num raw => raw
  | JVal.str s => s
  | JVal.arr es => joinWith [','] (jsElemList es)
  | JVal.obj _ => ("[object Object]").toList

/-- `ToString` of each element of an array, for `join(",")`. -/
def jsElemList : List JVal → List Str
  | [] => []
  | v :: vs => jsElemStr v :: jsElemList vs

end

/-- JavaScript `x > 0` for a JSON value `x` (as found in a `length`
member): `undefined`/`null`/objects are not positive (`NaN` or `0`),
booleans coerce to `1`/`0`, numbers compare directly, strings via
`ToNumber`, arrays via their `join(",")` string. -/
def jsGtZeroVal : JVal → Bool
  | JVal.null => false
  | JVal.bool b => b
  | JVal.num raw => numPositive raw
  | JVal.str s => strNumPositive s
  | JVal.arr es => strNumPositive (joinWith [','] (jsElemList es))
  | JVal.obj _ => false

/-- `json.choices.length > 0`, for each shape the parsed `choices` value
can take: arrays and strings use their built-in `length`; a plain object
uses its own `"length"` member (an array-like object passes here!),
coerced by the `>` comparison; numbers and booleans have no `length`
property and `undefined > 0` is false.  `null` never reaches this test
(it is falsy, so the `&&` chain already stopped). -/
def choicesLengthPos : JVal → Bool
  | JVal.arr es => !es.isEmpty
  | JVal.str s => !s.isEmpty
  | JVal.obj ms =>
    match objGet ms (("length").toList) with
    | some v => jsGtZeroVal v
    | none => false
  | _ => false

/-- `json.choices[0]`: element `0` of an array, the `"0"` member of an
array-like object, the first character of a string (as a one-character
string); `undefined` (`none`) otherwise. -/
def choicesIndexZero : JVal → Option JVal
  | JVal.arr es => es.head?
  | JVal.obj ms => objGet ms (("0").toList)
  | JVal.str s =>
    match s with
    | c :: _ => some (JVal.str [c])
    | [] => none
  | _ => none

/-- The text the handler extracts from one parsed record: `some t` exactly
when the guard `json.choices && json.choices.length > 0 &&
json.choices[0].delta` passes and `json.choices[0].delta.content` is a
string.  `choices` may be an array with at least one element or an
array-like object (`"length"`/`"0"` members); an undefined `choices[0]`
makes the `.delta` access throw, which the `catch` absorbs — no
insertion. -/
def recordInsertText (j : JVal) : Option Str :=
  match j with
  | JVal.obj ms =>
    match objGet ms (("choices").toList) with
    | some cv =>
      if jsTruthy cv && choicesLengthPos cv then
        match choicesIndexZero cv with
        | some c0 =>
          match jsGet c0 (("delta").toList) with
          | some d =>
            if jsTruthy d then
              match jsGet d (("content").toList) with
              | some (JVal.str t) => some t
              | _ => none
            else none
          | none => none
        | none => none
      else none
    | none => none
  | _ => none

/-- `text.split("\n").join("\n> ")`: blockquote-mode rewriting of a delta. -/
def bqRewrite (t : Str) : Str :=
  joinWith ('\n' :: '>' :: [' ']) (splitOnC '\n' t)

/-- Process one candidate record: parse it, run the guard, extract and
(in blockquote mode) rewrite the delta.  `none` means no document
insertion; parse failures are logged-and-skipped by the source. -/
def handleRecord (useBq : Bool) (r : Str) : Option Str :=
  match jsonParse r with
  | none => none
  | some j =>
    match recordInsertText j with
    | some t => some (if useBq then bqRewrite t else t)
    | none => none

/-! ## The drain loop and chunk processing -/

/-- Carry-over-buffer state of the read loop, plus the document insertions
performed so far (in order). -/
structure SState where
  buffer : Str
  inserts : List Str
deriving DecidableEq

/-- The inner `while` loop: find the next newline, consume everything up to
and including it as one candidate record, and repeat; stop when no newline
is left.  `fuel` bounds the iteration count; the wrapper `drain` passes the
buffer length, which suffices because every iteration removes at least the
newline character. -/
def drainF (useBq : Bool) : Nat → List Str → Str → List Str × Str
  | 0, ins, buf => (ins, buf)
  | fuel + 1, ins, buf =>
    match nlIndex buf with
    | none => (ins, buf)
    | some i =>
      drainF useBq fuel (ins ++ (handleRecord useBq (buf.take i)).toList) (buf.drop (i + 1))

/-- Drain every complete newline-terminated record out of the buffer. -/
def drain (useBq : Bool) (ins : List Str) (buf : Str) : List Str × Str :=
  drainF useBq buf.length ins buf

/-- One `data:` arrival: decode (modeled upstream), strip line-leading
`"data: "` markers, append to the carry-over buffer, and drain. -/
def processChunk (useBq : Bool) (st : SState) (chunk : Str) : SState :=
  let stripped := stripData chunk
  let p := drain useBq st.inserts (st.buffer ++ stripped)
  ⟨p.2, p.1⟩

/-- Run the streaming loop over a list of decoded data chunks, starting from
an empty buffer with no insertions performed. -/
def runStream (useBq : Bool) (chunks : List Str) : SState :=
  chunks.foldl (processChunk useBq) ⟨[], []⟩

/-! ## Session start, the read loop, cleanup, and the plugin entry points -/

/-- Message roles. -/
inductive Role where
  | system
  | user
deriving DecidableEq

/-- One chat message (the source's exported `Prompt` type). -/
structure Prompt where
  role : Role
  content : Str
deriving DecidableEq

/-- The fixed system instruction that disables the model's own quoting. -/
def blockQuotePrompts : List Prompt :=
  [⟨Role.system,
    ("Do not format your responses in blockquotes. The plugin will handle that for you.").toList⟩]

/-- `[...blockQuotePrompts]`. -/
def hardCodedSystemPrompts : List Prompt := blockQuotePrompts

/-- The content of the per-file system message built by `generateText`:
`` `File: ${file.path}\n${file.content}` ``. -/
def fileMessageContent (path content : Str) : Str :=
  ("File: ").toList ++ path ++ '\n' :: content

/-- The message list `streamOpenAI` sends, assembled from `generateText`'s
per-file system prompts:
`[...hardCodedSystemPrompts, ...systemPrompts, Role user with the document]`.
Auxiliary files are `(resolved path, content)` pairs. -/
def buildMessages (doc : Str) (files : List (Str × Str)) : List Prompt :=
  hardCodedSystemPrompts
    ++ files.map (fun f => ⟨Role.system, fileMessageContent f.1 f.2⟩)
    ++ [⟨Role.user, doc⟩]

/-- The blockquote header inserted before any model text when blockquote
mode is on: `` `> [!ai] ${prefixSetting.length ? prefixSetting : "AI"}\n> ` ``. -/
def bqHeader (label : Str) : Str :=
  ("> [!ai] ").toList
    ++ (if label.length ≠ 0 then label else ("AI").toList)
    ++ '\n' :: '>' :: [' ']

/-- The plugin settings the streaming path reads. -/
structure Settings where
  useBlockquote : Bool
  blockquoteLabel : Str

/-- The plugin's process-wide session fields: `isStreaming` and whether
`streamReader` is non-null. -/
structure PluginSt where
  isStreaming : Bool
  readerHeld : Bool
deriving DecidableEq

/-- What one `await this.streamReader.read()` can yield in the environment:
a data chunk, end-of-stream, or a failure.  `fail` stands for any exception
escaping that loop iteration (a rejected read, or a throw from the loop
body), which the `catch` absorbs before the `finally` runs. -/
inductive ReadEvent where
  | chunk (data : Str)
  | done
  | fail

/-- The outer read loop: process chunks in arrival order until end-of-stream
or a failure (or the environment's event list is exhausted). -/
def streamLoop (useBq : Bool) : List ReadEvent → SState → SState
  | [], st => st
  | ReadEvent.done :: _, st => st
  | ReadEvent.fail :: _, st => st
  | ReadEvent.chunk c :: rest, st => streamLoop useBq rest (processChunk useBq st c)

/-- The `finally` block:
`if (this.streamReader) { this.streamReader.cancel(); this.streamReader = null; }`
then `this.isStreaming = false`.  Returns the new session fields and the
number of `cancel()` calls made. -/
def finallyBlock (p : PluginSt) : PluginSt × Nat :=
  if p.readerHeld then (⟨false, false⟩, 1) else (⟨false, false⟩, 0)

/-- Observable effects of one plugin entry-point call. -/
structure Effects where
  sent : List (List Prompt)
  notices : Nat
  cancels : Nat
  inserts : List Str
deriving DecidableEq

/-- `streamOpenAI`: issue the POST (its payload is recorded in `sent`).
With no response body: notice and return, session fields untouched.
Otherwise: acquire the reader and set the flag (state `⟨true, true⟩`),
insert the blockquote header if configured, run the read loop over the
environment's events, and run the `finally` block. -/
def streamOpenAIM (s : Settings) (st : PluginSt) (msgs : List Prompt)
    (body : Option (List ReadEvent)) : PluginSt × Effects :=
  match body with
  | none => (st, ⟨[msgs], 1, 0, []⟩)
  | some evs =>
    let header := if s.useBlockquote then [bqHeader s.blockquoteLabel] else []
    let final := streamLoop s.useBlockquote evs ⟨[], header⟩
    let c := finallyBlock ⟨true, true⟩
    (c.1, ⟨[msgs], 0, c.2, final.inserts⟩)

/-- Characters trimmed by JavaScript `String.prototype.trim` (the common
ASCII ones; the plugin only tests whether the trimmed text is empty). -/
def isJsWs (c : Char) : Bool :=
  c = ' ' || c = '\t' || c = '\n' || c = '\r' || c = '\x0b' || c = '\x0c'

/-- `text.trim()`. -/
def jsTrim (s : Str) : Str :=
  ((s.dropWhile isJsWs).reverse.dropWhile isJsWs).reverse

/-- `generateText`: notice-and-return on an all-whitespace note; then
notice-and-return if a session is active; otherwise assemble the messages
and stream.  `files` is the output of `resolveAndReadFiles`. -/
def generateTextM (s : Settings) (st : PluginSt) (doc : Str)
    (files : List (Str × Str)) (body : Option (List ReadEvent)) : PluginSt × Effects :=
  if (jsTrim doc).length = 0 then (st, ⟨[], 1, 0, []⟩)
  else if st.isStreaming then (st, ⟨[], 1, 0, []⟩)
  else streamOpenAIM s st (buildMessages doc files) body

/-! ## The session interleaved with `stopStreaming`

`streamOpenAI`'s loop runs concurrently (cooperatively) with the user's
stop command.  `sessStep` is the per-suspension-point step relation: between
two `read()` results the user may run `stopStreaming`, which cancels and
nulls the reader and clears the flag.  A chunk delivered after that finds
`this.streamReader === null`, so the loop's `this.streamReader.read()`
throws, the `catch` absorbs it, and the `finally` runs — no insertion. -/

/-- Session state visible across suspension points. -/
structure Sess where
  isStreaming : Bool
  readerHeld : Bool
  finished : Bool
  buffer : Str
  inserts : List Str

/-- Events at the session's suspension points. -/
inductive SessEv where
  | deliver (c : Str)
  | stop
  | done
  | fail

/-- Session state right after `streamOpenAI` acquires the reader, sets the
flag, and (in blockquote mode) inserts the header. -/
def sessInit (useBq : Bool) (label : Str) : Sess :=
  ⟨true, true, false, [], if useBq then [bqHeader label] else []⟩

/-- One step of the interleaved session. -/
def sessStep (useBq : Bool) (s : Sess) (e : SessEv) : Sess :=
  match e with
  | SessEv.stop =>
    { s with isStreaming := false, readerHeld := false }
  | SessEv.done =>
    if s.finished then s
    else { s with finished := true, readerHeld := false, isStreaming := false }
  | SessEv.fail =>
    if s.finished then s
    else { s with finished := true, readerHeld := false, isStreaming := false }
  | SessEv.deliver c =>
    if s.finished then s
    else if s.readerHeld then
      let st := processChunk useBq ⟨s.buffer, s.inserts⟩ c
      { s with buffer := st.buffer, inserts := st.inserts }
    else
      { s with finished := true, isStreaming := false }

/-- Run a session from its start through a list of events. -/
def runSess (useBq : Bool) (label : Str) (evs : List SessEv) : Sess :=
  evs.foldl (sessStep useBq) (sessInit useBq label)

/-! ## Path resolution (`resolvePath`) -/

/-- Normalize backslashes to forward slashes
(`filePath.replace(/\\/g, "/")`). -/
def normSlashes (s : Str) : Str :=
  s.map (fun c => if c = '\\' then '/' else c)

/-- `haystack.includes(needle)`. -/
def jsIncludes (needle : Str) : Str → Bool
  | [] => needle.isEmpty
  | c :: rest => needle.isPrefixOf (c :: rest) || jsIncludes needle rest

/-- The test `/^[a-zA-Z]:\\/.test(filePath)`: an ASCII letter, then a
colon, then a backslash. -/
def winDriveTest : Str → Bool
  | c :: d :: e :: _ => c.isAlpha && (d == ':') && (e == '\\')
  | _ => false

/-- `path.join` of already-split parts, modeled as POSIX joining with `/`. -/
def joinSlash (parts : List Str) : Str :=
  joinWith ['/'] parts

/-- Model of `path.join(...filePath.split("\\"))` (the Windows-drive
branch; provably unreachable, see `resolve_path_cases`). -/
def winJoinModel (s : Str) : Str :=
  joinSlash (splitOnC '\\' s)

/-- Model of `` `\\\\${path.join(...filePath.slice(2).split("\\"))}` ``
(the UNC branch; provably unreachable, see `resolve_path_cases`). -/
def uncJoinModel (s : Str) : Str :=
  '\\' :: '\\' :: joinSlash (splitOnC '\\' (s.drop 2))

/-- Model of `path.join(process.env.HOME || "", filePath.slice(1))`:
POSIX joining, without dot-segment normalization (no theorem below
depends on dot segments inside a joined path). -/
def homeExpand (home rest : Str) : Str :=
  match rest with
  | [] => home
  | '/' :: _ => home ++ rest
  | _ => home ++ '/' :: rest

/-- Model of `path.resolve(vaultRoot, p)` (POSIX): an absolute `p` wins,
anything else is joined onto the root.  Dot-segment collapsing is not
modeled; no theorem below depends on it. -/
def vaultResolve (root p : Str) : Str :=
  match p with
  | '/' :: _ => p
  | _ => root ++ '/' :: p

/-- `resolvePath`, branch for branch from the source: normalize
backslashes; `/`-absolute unchanged; `.`-leading or `..`-containing
against the vault root; the (dead) Windows drive and UNC branches; Android
storage paths unchanged; `~` against the home directory; vault-root
fallback. -/
def resolvePath (home root fp0 : Str) : Str :=
  let fp := normSlashes fp0
  if (['/'] : Str).isPrefixOf fp then fp
  else if (['.'] : Str).isPrefixOf fp || jsIncludes ('.' :: ['.']) fp then
    vaultResolve root fp
  else if winDriveTest fp then winJoinModel fp
  else if (('\\' : Char) :: ['\\'] : Str).isPrefixOf fp then uncJoinModel fp
  else if jsIncludes (("/storage/emulated/").toList) fp
       || jsIncludes (("/sdcard/").toList) fp then fp
  else if (['~'] : Str).isPrefixOf fp then homeExpand home (fp.drop 1)
  else vaultResolve root fp

/-! ## Lemmas: `nlIndex` -/

theorem nlIndex_eq_none {s : Str} : nlIndex s = none ↔ '\n' ∉ s := by
  induction s with
  | nil => simp [nlIndex]
  | cons c rest ih =>
    by_cases h : c = '\n'
    · subst h; simp [nlIndex]
    · simp only [nlIndex, if_neg h, Option.map_eq_none', ih, List.mem_cons]
      constructor
      · exact fun hn hor => hor.elim (fun he => h he.symm) hn
      · exact fun hn hm => hn (Or.inr hm)

theorem nlIndex_lt {s : Str} {i : Nat} (h : nlIndex s = some i) : i < s.length := by
  induction s generalizing i with
  | nil => simp [nlIndex] at h
  | cons c rest ih =>
    simp only [nlIndex] at h
    by_cases hc : c = '\n'
    · rw [if_pos hc] at h
      injection h with h
      simp only [List.length_cons]
      omega
    · simp only [if_neg hc, Option.map_eq_some'] at h
      obtain ⟨j, hj, rfl⟩ := h
      have := ih hj
      simp only [List.length_cons]
      omega

theorem nlIndex_append_left {b : Str} {i : Nat} (e : Str) (h : nlIndex b = some i) :
    nlIndex (b ++ e) = some i := by
  induction b generalizing i with
  | nil => simp [nlIndex] at h
  | cons c rest ih =>
    simp only [nlIndex] at h
    rw [List.cons_append]
    by_cases hc : c = '\n'
    · simp only [nlIndex, if_pos hc] at h ⊢
      exact h
    · simp only [nlIndex, if_neg hc, Option.map_eq_some'] at h ⊢
      obtain ⟨j, hj, rfl⟩ := h
      exact ⟨j, ih hj, rfl⟩

theorem nlIndex_terminator {r : Str} (t : Str) (h : '\n' ∉ r) :
    nlIndex (r ++ '\n' :: t) = some r.length := by
  induction r with
  | nil => simp [nlIndex]
  | cons c rest ih =>
    have hc : ¬ c = '\n' := fun hc => h (hc ▸ List.mem_cons_self c rest)
    rw [List.cons_append]
    simp only [nlIndex, if_neg hc,
      ih (fun hm => h (List.mem_cons_of_mem _ hm)), Option.map_some', List.length_cons]

/-! ## Lemmas: the drain loop -/

theorem drainF_congr (u : Bool) :
    ∀ f g ins buf, buf.length ≤ f → buf.length ≤ g →
      drainF u f ins buf = drainF u g ins buf := by
  intro f
  induction f using Nat.strong_induction_on with
  | _ f ih =>
    intro g ins buf hf hg
    cases hnl : nlIndex buf with
    | none =>
      have unf : ∀ n, drainF u n ins buf = (ins, buf) := by
        intro n
        cases n with
        | zero => rfl
        | succ m => simp [drainF, hnl]
      rw [unf f, unf g]
    | some i =>
      have hi : i < buf.length := nlIndex_lt hnl
      cases f with
      | zero => omega
      | succ f' =>
        cases g with
        | zero => omega
        | succ g' =>
          simp only [drainF, hnl]
          have hlen : (buf.drop (i + 1)).length ≤ f' := by
            simp only [List.length_drop]
            omega
          have hlen' : (buf.drop (i + 1)).length ≤ g' := by
            simp only [List.length_drop]
            omega
          exact ih f' (Nat.lt_succ_self f') g' _ _ hlen hlen'

theorem drainF_eq_drain (u : Bool) (fuel : Nat) (ins : List Str) (buf : Str)
    (h : buf.length ≤ fuel) : drainF u fuel ins buf = drain u ins buf :=
  drainF_congr u fuel buf.length ins buf h (le_refl _)

theorem drain_of_no_newline (u : Bool) (ins : List Str) (buf : Str)
    (h : nlIndex buf = none) : drain u ins buf = (ins, buf) := by
  unfold drain
  cases hb : buf.length with
  | zero => rfl
  | succ n => simp [drainF, h]

theorem drain_step (u : Bool) (ins : List Str) (buf : Str) (i : Nat)
    (h : nlIndex buf = some i) :
    drain u ins buf
      = drain u (ins ++ (handleRecord u (buf.take i)).toList) (buf.drop (i + 1)) := by
  have hi : i < buf.length := nlIndex_lt h
  obtain ⟨n, hn⟩ : ∃ n, buf.length = n + 1 := ⟨buf.length - 1, by omega⟩
  unfold drain
  rw [hn]
  simp only [drainF, h]
  exact drainF_eq_drain u n _ _ (by simp only [List.length_drop]; omega)

theorem drain_terminator (u : Bool) (ins : List Str) {r : Str} (t : Str)
    (h : '\n' ∉ r) :
    drain u ins (r ++ '\n' :: t) = drain u (ins ++ (handleRecord u r).toList) t := by
  rw [drain_step u ins _ r.length (nlIndex_terminator t h)]
  have htake : (r ++ '\n' :: t).take r.length = r := List.take_left r ('\n' :: t)
  have hdrop : (r ++ '\n' :: t).drop (r.length + 1) = t := by
    have : r ++ '\n' :: t = (r ++ ['\n']) ++ t := by simp
    rw [this, show r.length + 1 = (r ++ ['\n']).length by simp]
    exact List.drop_left _ _
  rw [htake, hdrop]

theorem drain_append (u : Bool) :
    ∀ n b, b.length ≤ n → ∀ e ins,
      drain u ins (b ++ e)
        = drain u (drain u ins b).1 ((drain u ins b).2 ++ e) := by
  intro n
  induction n with
  | zero =>
    intro b hb e ins
    have hb0 : b = [] := List.length_eq_zero.mp (Nat.le_zero.mp hb)
    subst hb0
    rw [drain_of_no_newline u ins [] rfl]
  | succ n ih =>
    intro b hb e ins
    cases hnl : nlIndex b with
    | none =>
      rw [drain_of_no_newline u ins b hnl]
    | some i =>
      have hi : i < b.length := nlIndex_lt hnl
      rw [drain_step u ins b i hnl, drain_step u ins (b ++ e) i (nlIndex_append_left e hnl)]
      rw [List.take_append_of_le_length (le_of_lt hi),
        List.drop_append_of_le_length (by omega)]
      exact ih (b.drop (i + 1)) (by simp only [List.length_drop]; omega) e _

theorem drain_append' (u : Bool) (ins : List Str) (b e : Str) :
    drain u ins (b ++ e) = drain u (drain u ins b).1 ((drain u ins b).2 ++ e) :=
  drain_append u b.length b (le_refl _) e ins

theorem drain_no_newline_left (u : Bool) :
    ∀ n buf, buf.length ≤ n → ∀ ins, nlIndex (drain u ins buf).2 = none := by
  intro n
  induction n with
  | zero =>
    intro buf hb ins
    have hb0 : buf = [] := List.length_eq_zero.mp (Nat.le_zero.mp hb)
    subst hb0
    rw [drain_of_no_newline u ins [] rfl]
    rfl
  | succ n ih =>
    intro buf hb ins
    cases hnl : nlIndex buf with
    | none =>
      rw [drain_of_no_newline u ins buf hnl]
      exact hnl
    | some i =>
      have hi : i < buf.length := nlIndex_lt hnl
      rw [drain_step u ins buf i hnl]
      exact ih _ (by simp only [List.length_drop]; omega) _

theorem drain_buffer_no_newline (u : Bool) (ins : List Str) (buf : Str) :
    nlIndex (drain u ins buf).2 = none :=
  drain_no_newline_left u buf.length buf (le_refl _) ins

/-! ## Lemmas: `stripData` -/

theorem splitOnC_ne_nil (sep : Char) (s : Str) : splitOnC sep s ≠ [] := by
  cases s with
  | nil => simp [splitOnC]
  | cons c rest =>
    simp only [splitOnC]
    by_cases h : c = sep
    · simp [h]
    · simp only [if_neg h]
      cases splitOnC sep rest <;> simp

theorem splitOnC_no_sep {sep : Char} {s : Str} (h : sep ∉ s) : splitOnC sep s = [s] := by
  induction s with
  | nil => rfl
  | cons c rest ih =>
    have hc : ¬ c = sep := fun he => h (he ▸ List.mem_cons_self c rest)
    simp only [splitOnC, if_neg hc]
    rw [ih (fun hm => h (List.mem_cons_of_mem _ hm))]

theorem splitOnC_append (sep : Char) (x y : Str) :
    splitOnC sep (x ++ sep :: y) = splitOnC sep x ++ splitOnC sep y := by
  induction x with
  | nil => simp [splitOnC]
  | cons c rest ih =>
    rw [List.cons_append]
    by_cases hc : c = sep
    · subst hc
      simp [splitOnC, ih]
    · simp only [splitOnC, if_neg hc, ih]
      cases hr : splitOnC sep rest with
      | nil => exact absurd hr (splitOnC_ne_nil sep rest)
      | cons l ls => simp

theorem joinWith_append (sep : Str) :
    ∀ l1 l2 : List Str, l1 ≠ [] → l2 ≠ [] →
      joinWith sep (l1 ++ l2) = joinWith sep l1 ++ sep ++ joinWith sep l2 := by
  intro l1
  induction l1 with
  | nil => intro l2 h1 _; exact absurd rfl h1
  | cons a l1' ih =>
    intro l2 h1 h2
    cases l1' with
    | nil =>
      cases l2 with
      | nil => exact absurd rfl h2
      | cons b l2' => simp [joinWith]
    | cons a2 l1'' =>
      rw [List.cons_append, List.cons_append]
      have e1 : joinWith sep (a :: a2 :: (l1'' ++ l2))
          = a ++ sep ++ joinWith sep (a2 :: (l1'' ++ l2)) := rfl
      have e2 : joinWith sep (a :: a2 :: l1'') = a ++ sep ++ joinWith sep (a2 :: l1'') := rfl
      rw [e1, e2, show a2 :: (l1'' ++ l2) = (a2 :: l1'') ++ l2 from rfl,
        ih l2 (by simp) h2]
      simp [List.append_assoc]

theorem stripData_no_newline {s : Str} (h : '\n' ∉ s) : stripData s = dropData s := by
  unfold stripData
  rw [splitOnC_no_sep h]
  rfl

theorem stripData_split (a b : Str) :
    stripData (a ++ '\n' :: b) = stripData (a ++ ['\n']) ++ stripData b := by
  have hA : (splitOnC '\n' a).map dropData ≠ [] := by
    simpa using splitOnC_ne_nil '\n' a
  have hB : (splitOnC '\n' b).map dropData ≠ [] := by
    simpa using splitOnC_ne_nil '\n' b
  unfold stripData
  rw [show a ++ ['\n'] = a ++ '\n' :: ([] : Str) from rfl]
  rw [splitOnC_append, splitOnC_append]
  rw [List.map_append, List.map_append]
  rw [joinWith_append _ _ _ hA hB, joinWith_append _ _ _ hA (by simp [splitOnC])]
  have : joinWith ['\n'] ((splitOnC '\n' ([] : Str)).map dropData) = [] := rfl
  rw [this]
  simp [List.append_assoc]

theorem stripData_append {a : Str} (b : Str) (h : a.getLast? = some '\n') :
    stripData (a ++ b) = stripData a ++ stripData b := by
  have hne : a ≠ [] := by
    intro h0
    rw [h0] at h
    simp at h
  have hlast : a.getLast hne = '\n' := by
    have h2 := List.getLast?_eq_getLast a hne
    rw [h2] at h
    injection h
  obtain ⟨a', rfl⟩ : ∃ a', a = a' ++ ['\n'] := by
    refine ⟨a.dropLast, ?_⟩
    rw [← hlast]
    exact (List.dropLast_append_getLast hne).symm
  rw [List.append_assoc, List.singleton_append]
  exact stripData_split a' b

theorem noNewline_dropData {s : Str} (h : '\n' ∉ s) : '\n' ∉ dropData s := by
  have hsub : dropData s <:+ s := by
    unfold dropData
    split
    · exact ⟨['d', 'a', 't', 'a', ':', ' '], rfl⟩
    · exact ⟨[], rfl⟩
  exact fun hm => h (hsub.subset hm)

/-! ## Lemmas: `processChunk` -/

theorem processChunk_def (u : Bool) (st : SState) (chunk : Str) :
    processChunk u st chunk
      = ⟨(drain u st.inserts (st.buffer ++ stripData chunk)).2,
         (drain u st.inserts (st.buffer ++ stripData chunk)).1⟩ := rfl

theorem processChunk_buffer_no_newline (u : Bool) (st : SState) (chunk : Str) :
    nlIndex (processChunk u st chunk).buffer = none := by
  rw [processChunk_def]
  exact drain_buffer_no_newline u _ _

theorem processChunk_nil (u : Bool) (st : SState) (h : nlIndex st.buffer = none) :
    processChunk u st [] = st := by
  obtain ⟨b, ins⟩ := st
  rw [processChunk_def]
  have h1 : stripData ([] : Str) = [] := rfl
  rw [h1, List.append_nil]
  rw [drain_of_no_newline u ins b h]

theorem processChunk_append (u : Bool) (st : SState) {c : Str} (d : Str)
    (h : c.getLast? = some '\n') :
    processChunk u st (c ++ d) = processChunk u (processChunk u st c) d := by
  rw [processChunk_def, processChunk_def, processChunk_def]
  rw [stripData_append d h, ← List.append_assoc]
  rw [drain_append' u st.inserts (st.buffer ++ stripData c) (stripData d)]

theorem foldl_processChunk_flatten (u : Bool) :
    ∀ (chunks : List Str) (st : SState), nlIndex st.buffer = none →
      (∀ c ∈ chunks.dropLast, c = [] ∨ c.getLast? = some '\n') →
      chunks.foldl (processChunk u) st = processChunk u st chunks.flatten := by
  intro chunks
  induction chunks with
  | nil =>
    intro st hst _
    exact (processChunk_nil u st hst).symm
  | cons c rest ih =>
    intro st hst hall
    cases rest with
    | nil =>
      simp only [List.foldl_cons, List.foldl_nil, List.flatten_cons, List.flatten_nil,
        List.append_nil]
    | cons c2 rest2 =>
      have hc : c = [] ∨ c.getLast? = some '\n' := by
        apply hall c
        rw [List.dropLast_cons₂]
        exact List.mem_cons_self _ _
      have hrest : ∀ x ∈ (c2 :: rest2).dropLast, x = [] ∨ x.getLast? = some '\n' := by
        intro x hx
        apply hall x
        rw [List.dropLast_cons₂]
        exact List.mem_cons_of_mem _ hx
      rcases hc with rfl | hc
      · rw [List.foldl_cons, processChunk_nil u st hst, List.flatten_cons,
          List.nil_append]
        exact ih st hst hrest
      · rw [List.foldl_cons, List.flatten_cons,
          processChunk_append u st (c2 :: rest2).flatten hc]
        exact ih (processChunk u st c) (processChunk_buffer_no_newline u st c) hrest

theorem stripData_terminated {a : Str} (h : '\n' ∉ a) :
    stripData (a ++ ['\n']) = dropData a ++ ['\n'] := by
  unfold stripData
  rw [show a ++ ['\n'] = a ++ '\n' :: ([] : Str) from rfl, splitOnC_append,
    splitOnC_no_sep h]
  simp only [splitOnC, List.map_append, List.map_cons, List.map_nil, joinWith]
  rw [show dropData [] = [] from rfl]
  simp [joinWith]

theorem stripData_line {a : Str} (b : Str) (h : '\n' ∉ a) :
    stripData (a ++ '\n' :: b) = dropData a ++ '\n' :: stripData b := by
  rw [stripData_split, stripData_terminated h]
  simp

/-! ## Sample stream data used by the concrete theorems -/

/-- A well-formed `data:`-framed delta record line carrying `"Hi"`,
newline-terminated. -/
def sampleHiLine : Str :=
  ("data: \x7b\"choices\":[\x7b\"delta\":\x7b\"content\":\"Hi\"\x7d\x7d]\x7d\n").toList

/-- A chunk holding a delta record carrying `" there"` followed by the
stream-end sentinel line, both newline-terminated. -/
def sampleThereDone : Str :=
  ("data: \x7b\"choices\":[\x7b\"delta\":\x7b\"content\":\" there\"\x7d\x7d]\x7d\n[DONE]\n").toList

/-- First half of a delta record split mid-record (no newline). -/
def sampleFirstHalf : Str :=
  ("data: \x7b\"choices\":[\x7b\"delta\":\x7b\"con").toList

/-- Second half of that split record, with the terminating newline. -/
def sampleSecondHalf : Str :=
  ("tent\":\"Hi\"\x7d\x7d]\x7d\n").toList

/-- The second half without its terminating newline. -/
def sampleSecondBody : Str :=
  ("tent\":\"Hi\"\x7d\x7d]\x7d").toList

/-- Claim C1, counterexample: the insertion sequence is NOT independent of
the chunk boundaries.  Splitting the single well-formed line `sampleHiLine`
after two characters cuts the `"data: "` marker in half, so neither
fragment's per-chunk `replace(/^data: /gm, "")` removes it; the buffered
record then still carries the marker, `JSON.parse` fails on it, and the
delivered delta `"Hi"` is silently lost, while the unsplit delivery inserts
it. -/
theorem chunk_boundary_dependence_cx :
    ¬ (∀ (u : Bool) (cs cs' : List Str), cs.flatten = cs'.flatten →
        (runStream u cs).inserts = (runStream u cs').inserts) := by
  intro hclaim
  have hsplit : ([sampleHiLine] : List Str).flatten
      = ([sampleHiLine.take 2, sampleHiLine.drop 2] : List Str).flatten := by
    simp
  have hii := hclaim false [sampleHiLine] [sampleHiLine.take 2, sampleHiLine.drop 2] hsplit
  exact absurd hii (by decide)

/-- Claim C1 (amended): the insertion sequence is independent of the chunk
fragmentation provided every chunk boundary falls at a record boundary,
i.e. every chunk except possibly the last is empty or ends with the record
terminator `'\n'`.  (The unrestricted claim is refuted by
`chunk_boundary_dependence_cx`: a boundary inside a `"data: "` marker
changes the insertion sequence, because the marker stripping runs per chunk
before buffering.)  Under this restriction the whole streaming state —
insertions and carry-over buffer — equals that of a single-chunk delivery
of the concatenated text. -/
theorem stream_chunk_boundary_invariant (u : Bool) (chunks : List Str)
    (h : ∀ c ∈ chunks.dropLast, c = [] ∨ c.getLast? = some '\n') :
    runStream u chunks = runStream u [chunks.flatten] := by
  unfold runStream
  rw [foldl_processChunk_flatten u chunks ⟨[], []⟩ rfl h]
  rw [List.foldl_cons, List.foldl_nil]

/-- Witness for `stream_chunk_boundary_invariant` at the spec's own
two-chunk example stream. -/
theorem stream_chunk_boundary_invariant_witness :
    (∀ c ∈ ([sampleHiLine, sampleThereDone] : List Str).dropLast,
        c = [] ∨ c.getLast? = some '\n')
    ∧ runStream true [sampleHiLine, sampleThereDone]
        = runStream true [([sampleHiLine, sampleThereDone] : List Str).flatten] :=
  ⟨by decide, stream_chunk_boundary_invariant true _ (by decide)⟩

/-! ## Claim C3 -/

/-- Claim C3: the drain loop consumes exactly one newline-terminated
candidate record per iteration — everything before the next newline,
removed from the buffer including the newline, whether or not it parses
(the `Option.toList` contributes the insertion only when it does) — and
stops to wait when the buffer holds no newline.  Consequently a record
split across two chunks causes no insertion after the first chunk, and is
parsed exactly once when its terminating newline arrives with the second
chunk, ending with an empty buffer. -/
theorem drain_one_record_per_iteration (u : Bool) :
    (∀ (ins : List Str) (buf : Str) (i : Nat), nlIndex buf = some i →
        drain u ins buf
          = drain u (ins ++ (handleRecord u (buf.take i)).toList) (buf.drop (i + 1)))
    ∧ (∀ (ins : List Str) (buf : Str), nlIndex buf = none → drain u ins buf = (ins, buf))
    ∧ (∀ (st : SState) (c1 c2 s2 : Str),
        nlIndex st.buffer = none → nlIndex (stripData c1) = none →
        stripData c2 = s2 ++ ['\n'] → nlIndex s2 = none →
        (processChunk u st c1).inserts = st.inserts
        ∧ processChunk u (processChunk u st c1) c2
            = ⟨[], st.inserts ++ (handleRecord u (st.buffer ++ stripData c1 ++ s2)).toList⟩) := by
  refine ⟨fun ins buf i h => drain_step u ins buf i h,
    fun ins buf h => drain_of_no_newline u ins buf h, ?_⟩
  intro st c1 c2 s2 hbuf hc1 hc2 hs2
  have hnn : nlIndex (st.buffer ++ stripData c1) = none := by
    rw [nlIndex_eq_none] at hbuf hc1 ⊢
    intro hm
    rcases List.mem_append.mp hm with hm | hm
    exacts [hbuf hm, hc1 hm]
  have hfst : processChunk u st c1 = ⟨st.buffer ++ stripData c1, st.inserts⟩ := by
    rw [processChunk_def, drain_of_no_newline u _ _ hnn]
  refine ⟨by rw [hfst], ?_⟩
  rw [hfst, processChunk_def]
  have hnr : '\n' ∉ st.buffer ++ stripData c1 ++ s2 := by
    rw [nlIndex_eq_none] at hbuf hc1 hs2
    intro hm
    rcases List.mem_append.mp hm with hm | hm
    · rcases List.mem_append.mp hm with hm | hm
      exacts [hbuf hm, hc1 hm]
    · exact hs2 hm
  have hbufeq :
      ((⟨st.buffer ++ stripData c1, st.inserts⟩ : SState).buffer ++ stripData c2)
        = (st.buffer ++ stripData c1 ++ s2) ++ '\n' :: ([] : Str) := by
    rw [hc2]
    simp [List.append_assoc]
  rw [hbufeq, drain_terminator u _ ([] : Str) hnr, drain_of_no_newline u _ [] rfl]

/-- Witness for `drain_one_record_per_iteration`: the split record
`sampleFirstHalf`/`sampleSecondHalf`, whose two halves produce no insertion
until the terminator arrives and then exactly the one delta `"Hi"`
(blockquote mode; the delta has no embedded newline). -/
theorem drain_one_record_per_iteration_witness :
    (nlIndex (⟨[], []⟩ : SState).buffer = none
      ∧ nlIndex (stripData sampleFirstHalf) = none
      ∧ stripData sampleSecondHalf = sampleSecondBody ++ ['\n']
      ∧ nlIndex sampleSecondBody = none)
    ∧ ((processChunk true ⟨[], []⟩ sampleFirstHalf).inserts = ([] : List Str)
      ∧ processChunk true (processChunk true ⟨[], []⟩ sampleFirstHalf) sampleSecondHalf
          = ⟨[], ([] : List Str)
              ++ (handleRecord true
                    (([] : Str) ++ stripData sampleFirstHalf ++ sampleSecondBody)).toList⟩) :=
  ⟨⟨rfl, by decide, by decide, by decide⟩,
    (drain_one_record_per_iteration true).2.2 ⟨[], []⟩ sampleFirstHalf sampleSecondHalf
      sampleSecondBody rfl (by decide) (by decide) (by decide)⟩

/-! ## Claim C4 -/

/-- Claim C4: a candidate record that fails to parse as JSON (such as the
`[DONE]` sentinel) is skipped without terminating the drain, and does not
affect its neighbours: a stream of three newline-terminated records — a
well-formed delta record, then a malformed record, then another well-formed
delta record — inserts exactly the two deltas, in order.  Records are given
as they appear on the wire (before `"data: "` stripping); `handleRecord`
speaks about them after the per-line stripping. -/
theorem malformed_record_between_deltas (u : Bool) (ins : List Str)
    (a1 am a2 t1 t2 : Str)
    (h1 : '\n' ∉ a1) (hm : '\n' ∉ am) (h2 : '\n' ∉ a2)
    (p1 : handleRecord u (dropData a1) = some t1)
    (pm : handleRecord u (dropData am) = none)
    (p2 : handleRecord u (dropData a2) = some t2) :
    processChunk u ⟨[], ins⟩ (a1 ++ '\n' :: (am ++ '\n' :: (a2 ++ ['\n'])))
      = ⟨[], ins ++ [t1, t2]⟩ := by
  rw [processChunk_def]
  have e0 : stripData (a1 ++ '\n' :: (am ++ '\n' :: (a2 ++ ['\n'])))
      = dropData a1 ++ '\n' :: (dropData am ++ '\n' :: (dropData a2 ++ ['\n'])) := by
    rw [stripData_line _ h1, stripData_line _ hm, stripData_terminated h2]
  rw [e0]
  have ebuf : ((⟨[], ins⟩ : SState).buffer
        ++ (dropData a1 ++ '\n' :: (dropData am ++ '\n' :: (dropData a2 ++ ['\n']))))
      = dropData a1 ++ '\n' :: (dropData am ++ '\n' :: (dropData a2 ++ '\n' :: ([] : Str))) := by
    simp
  rw [ebuf]
  rw [drain_terminator u _ _ (noNewline_dropData h1), p1,
    drain_terminator u _ _ (noNewline_dropData hm), pm,
    drain_terminator u _ ([] : Str) (noNewline_dropData h2), p2,
    drain_of_no_newline u _ [] rfl]
  simp

/-- Witness for `malformed_record_between_deltas`: the spec's example
stream — `"Hi"` delta, `[DONE]`-style malformed line, `" there"` delta —
in plain mode. -/
theorem malformed_record_between_deltas_witness :
    (handleRecord false (dropData (("data: \x7b\"choices\":[\x7b\"delta\":\x7b\"content\":\"Hi\"\x7d\x7d]\x7d").toList))
        = some (("Hi").toList)
      ∧ handleRecord false (dropData (("[DONE]").toList)) = none
      ∧ handleRecord false (dropData (("data: \x7b\"choices\":[\x7b\"delta\":\x7b\"content\":\" there\"\x7d\x7d]\x7d").toList))
        = some ((" there").toList))
    ∧ processChunk false ⟨[], []⟩
        ((("data: \x7b\"choices\":[\x7b\"delta\":\x7b\"content\":\"Hi\"\x7d\x7d]\x7d").toList)
          ++ '\n' :: ((("[DONE]").toList)
          ++ '\n' :: ((("data: \x7b\"choices\":[\x7b\"delta\":\x7b\"content\":\" there\"\x7d\x7d]\x7d").toList)
          ++ ['\n'])))
      = ⟨[], ([] : List Str) ++ [("Hi").toList, (" there").toList]⟩ :=
  ⟨⟨by decide, by decide, by decide⟩,
    malformed_record_between_deltas false [] _ _ _ _ _
      (by decide) (by decide) (by decide) (by decide) (by decide) (by decide)⟩

/-! ## Claim C5 -/

/-- Model fidelity at an array-like object `choices`: for a record whose
`choices` is a JSON object carrying `"0"` and `"length"` members, the
source guard passes (`choices.length` reads the object's own `length`
member, `choices[0]` its `"0"` member) and the content is inserted.  The
model agrees: `recordInsertText` yields the content, so such a record can
never satisfy the no-usable-delta hypothesis of the claim-C5 theorem
below. -/
theorem handleRecord_array_like_choices :
    handleRecord false
        (("\x7b\"choices\":\x7b\"0\":\x7b\"delta\":\x7b\"content\":\"X\"\x7d\x7d,\"length\":1\x7d\x7d").toList)
      = some (("X").toList)
    ∧ handleRecord false
        (("\x7b\"choices\":\x7b\"0\":\x7b\"delta\":\x7b\"content\":\"X\"\x7d\x7d,\"length\":\"1\"\x7d\x7d").toList)
      = some (("X").toList)
    ∧ handleRecord false
        (("\x7b\"choices\":\x7b\"0\":\x7b\"delta\":\x7b\"content\":\"X\"\x7d\x7d,\"length\":0\x7d\x7d").toList)
      = none := by
  refine ⟨by rfl, by rfl, by rfl⟩

/-- Claim C2: a generation request arriving while the active-session flag
is set is rejected: the plugin state (flag, reader) is returned untouched,
a user-visible notice is shown, no HTTP request is issued (`sent = []`),
no reader is cancelled, and no document insertion happens — so the rejected
request cannot interleave insertions with the active session's. -/
theorem busy_generate_rejected (s : Settings) (st : PluginSt) (doc : Str)
    (files : List (Str × Str)) (body : Option (List ReadEvent))
    (h : st.isStreaming = true) :
    generateTextM s st doc files body = (st, ⟨[], 1, 0, []⟩) := by
  unfold generateTextM
  by_cases he : (jsTrim doc).length = 0
  · rw [if_pos he]
  · rw [if_neg he, if_pos h]

/-- Witness for `busy_generate_rejected`: a concrete busy state. -/
theorem busy_generate_rejected_witness :
    ((⟨true, true⟩ : PluginSt).isStreaming = true)
    ∧ generateTextM ⟨false, []⟩ ⟨true, true⟩ (("hello").toList) [] none
        = (⟨true, true⟩, ⟨[], 1, 0, []⟩) :=
  ⟨rfl, busy_generate_rejected ⟨false, []⟩ ⟨true, true⟩ (("hello").toList) [] none rfl⟩

/-! ## Claim C6 -/

/-- Claim C6: on every exit path of the streaming loop — natural
end-of-stream, mid-stream read error, an exception in the loop body
(`ReadEvent.fail`), or exhaustion of the environment's events — the
`finally` block runs: the held reader is cancelled exactly once
(`cancels = 1`), the reader field is nulled, and the active flag is
cleared; so after `streamOpenAI` returns, `streamReader` is null and
`isStreaming` is false. -/
theorem stream_cleanup_on_all_paths (s : Settings) (st : PluginSt)
    (msgs : List Prompt) (evs : List ReadEvent) :
    (streamOpenAIM s st msgs (some evs)).1.readerHeld = false
    ∧ (streamOpenAIM s st msgs (some evs)).1.isStreaming = false
    ∧ (streamOpenAIM s st msgs (some evs)).2.cancels = 1 := by
  unfold streamOpenAIM finallyBlock
  exact ⟨rfl, rfl, rfl⟩

/-! ## Claim C7 -/

theorem sessStep_stopped (u : Bool) (s : Sess) (e : SessEv)
    (h : s.readerHeld = false) :
    (sessStep u s e).inserts = s.inserts ∧ (sessStep u s e).readerHeld = false := by
  cases e with
  | stop => exact ⟨rfl, rfl⟩
  | done =>
    by_cases hf : s.finished <;> simp [sessStep, hf, h]
  | fail =>
    by_cases hf : s.finished <;> simp [sessStep, hf, h]
  | deliver c =>
    by_cases hf : s.finished <;> simp [sessStep, hf, h]

theorem foldl_sessStep_stopped (u : Bool) :
    ∀ (post : List SessEv) (s : Sess), s.readerHeld = false →
      (post.foldl (sessStep u) s).inserts = s.inserts
        ∧ (post.foldl (sessStep u) s).readerHeld = false := by
  intro post
  induction post with
  | nil => exact fun s h => ⟨rfl, h⟩
  | cons e rest ih =>
    intro s h
    rw [List.foldl_cons]
    obtain ⟨h1, h2⟩ := sessStep_stopped u s e h
    obtain ⟨h3, h4⟩ := ih (sessStep u s e) h2
    exact ⟨h3.trans h1, h4⟩

/-- Claim C7: once `stopStreaming` has run (it cancels and nulls the
reader and clears the flag), the active-session flag is false, and no
event delivered afterwards — more data, end-of-stream, errors, repeated
stops — ever adds a document insertion: bytes already buffered or
subsequently delivered are never inserted post-cancellation. -/
theorem stop_halts_session (u : Bool) (label : Str) (pre post : List SessEv) :
    (runSess u label (pre ++ SessEv.stop :: post)).inserts
        = (runSess u label (pre ++ [SessEv.stop])).inserts
    ∧ (runSess u label (pre ++ [SessEv.stop])).isStreaming = false := by
  unfold runSess
  rw [List.foldl_append, List.foldl_append, List.foldl_cons, List.foldl_cons,
    List.foldl_nil]
  exact ⟨(foldl_sessStep_stopped u post _ rfl).1, rfl⟩

/-! ## Claim C8 -/

/-- Claim C8: for every document text and list of auxiliary files, the
assembled request message list is, in order: the fixed system instruction
disabling the model's own quoting; one system message per auxiliary file
whose content is `"File: "`, the resolved path, a newline, and the file
content; and one final user message holding the document text verbatim —
nothing else and nothing truncated (the length is exactly
`files.length + 2`). -/
theorem message_assembly_order (doc : Str) (files : List (Str × Str)) :
    buildMessages doc files
      = ⟨Role.system,
          ("Do not format your responses in blockquotes. The plugin will handle that for you.").toList⟩
          :: (files.map fun f => ⟨Role.system, ("File: ").toList ++ f.1 ++ '\n' :: f.2⟩)
          ++ [⟨Role.user, doc⟩]
    ∧ (buildMessages doc files).length = files.length + 2 := by
  constructor
  · rfl
  · simp [buildMessages, hardCodedSystemPrompts, blockQuotePrompts]

/-! ## Claim C10 -/

/-- Claim C10: when blockquote mode is enabled and the stored blockquote
prefix setting is the empty string, the header inserted before any model
text uses the literal fallback label `"AI"`: the inserted text is exactly
`"> [!ai] AI\n> "`, both as the computed header and as the session's first
(and only pre-delta) insertion. -/
theorem empty_blockquote_label_fallback :
    bqHeader [] = ("> [!ai] AI\n> ").toList
    ∧ (sessInit true []).inserts = [("> [!ai] AI\n> ").toList]
    ∧ (streamOpenAIM ⟨true, []⟩ ⟨false, false⟩ [] (some [])).2.inserts
        = [("> [!ai] AI\n> ").toList] := by
  refine ⟨by decide, by decide, by decide⟩

/-! ## Claim C9 -/

theorem normSlashes_no_backslash (s : Str) : '\\' ∉ normSlashes s := by
  intro hm
  unfold normSlashes at hm
  rw [List.mem_map] at hm
  obtain ⟨c, _, hc⟩ := hm
  by_cases h : c = '\\'
  · rw [if_pos h] at hc
    exact absurd hc (by decide)
  · rw [if_neg h] at hc
    exact h hc

/-- The Windows drive-letter branch of `resolvePath` is dead: its test
requires a backslash in third position, but the preceding normalization
replaced every backslash with a forward slash. -/
theorem winDriveTest_dead (s : Str) : winDriveTest (normSlashes s) = false := by
  cases hn : normSlashes s with
  | nil => rfl
  | cons c rest =>
    cases rest with
    | nil => rfl
    | cons d rest2 =>
      cases rest2 with
      | nil => rfl
      | cons e rest3 =>
        have he : e ≠ '\\' := by
          intro h
          apply normSlashes_no_backslash s
          rw [hn, h]
          exact List.mem_cons_of_mem _ (List.mem_cons_of_mem _ (List.mem_cons_self _ _))
        simp [winDriveTest, he]

/-- The UNC branch of `resolvePath` is dead for the same reason: the
normalized path cannot start with two backslashes. -/
theorem uncTest_dead (s : Str) :
    (('\\' : Char) :: ['\\'] : Str).isPrefixOf (normSlashes s) = false := by
  cases hn : normSlashes s with
  | nil => rfl
  | cons c rest =>
    have hc : c ≠ '\\' := by
      intro h
      apply normSlashes_no_backslash s
      rw [hn, h]
      exact List.mem_cons_self _ _
    simp [List.isPrefixOf, Ne.symm hc]

/-- Claim C9 (amended): path resolution first normalizes backslashes to
forward slashes, then classifies the normalized path, with this effective
precedence: (1) starting with `/` (POSIX-absolute, which includes
normalized UNC paths) → returned as normalized; (2) starting with `.` or
containing `..` → resolved against the vault root — note this fires even
for `~`-leading paths containing `..`, so it precedes home expansion;
(3, 4) the Windows drive-letter and UNC branches are unreachable, since
their tests require backslashes that the normalization removed (so a
drive-letter path such as `C:\...` falls through to the final fallback,
rather than being returned unchanged as the original claim stated — see
`drive_letter_path_not_unchanged`); (5) containing `/storage/emulated/` or
`/sdcard/` → returned as normalized; (6) starting with `~` → expanded
against the home directory; (7) anything else → resolved against the vault
root. -/
theorem resolve_path_cases (home root p : Str) :
    winDriveTest (normSlashes p) = false
    ∧ (('\\' : Char) :: ['\\'] : Str).isPrefixOf (normSlashes p) = false
    ∧ ((['/'] : Str).isPrefixOf (normSlashes p) = true →
        resolvePath home root p = normSlashes p)
    ∧ ((['/'] : Str).isPrefixOf (normSlashes p) = false →
        ((['.'] : Str).isPrefixOf (normSlashes p)
          || jsIncludes ('.' :: ['.']) (normSlashes p)) = true →
        resolvePath home root p = vaultResolve root (normSlashes p))
    ∧ ((['/'] : Str).isPrefixOf (normSlashes p) = false →
        ((['.'] : Str).isPrefixOf (normSlashes p)
          || jsIncludes ('.' :: ['.']) (normSlashes p)) = false →
        (jsIncludes (("/storage/emulated/").toList) (normSlashes p)
          || jsIncludes (("/sdcard/").toList) (normSlashes p)) = true →
        resolvePath home root p = normSlashes p)
    ∧ ((['/'] : Str).isPrefixOf (normSlashes p) = false →
        ((['.'] : Str).isPrefixOf (normSlashes p)
          || jsIncludes ('.' :: ['.']) (normSlashes p)) = false →
        (jsIncludes (("/storage/emulated/").toList) (normSlashes p)
          || jsIncludes (("/sdcard/").toList) (normSlashes p)) = false →
        (['~'] : Str).isPrefixOf (normSlashes p) = true →
        resolvePath home root p = homeExpand home ((normSlashes p).drop 1))
    ∧ ((['/'] : Str).isPrefixOf (normSlashes p) = false →
        ((['.'] : Str).isPrefixOf (normSlashes p)
          || jsIncludes ('.' :: ['.']) (normSlashes p)) = false →
        (jsIncludes (("/storage/emulated/").toList) (normSlashes p)
          || jsIncludes (("/sdcard/").toList) (normSlashes p)) = false →
        (['~'] : Str).isPrefixOf (normSlashes p) = false →
        resolvePath home root p = vaultResolve root (normSlashes p)) := by
  have hwd := winDriveTest_dead p
  have hunc := uncTest_dead p
  refine ⟨hwd, hunc, ?_, ?_, ?_, ?_, ?_⟩
  · intro h1
    simp only [resolvePath]
    rw [h1]
    simp
  · intro h1 h2
    simp only [resolvePath]
    rw [h1, h2]
    simp
  · intro h1 h2 h3
    simp only [resolvePath]
    rw [h1, h2, hwd, hunc, h3]
    simp
  · intro h1 h2 h3 h4
    simp only [resolvePath]
    rw [h1, h2, hwd, hunc, h3, h4]
    simp
  · intro h1 h2 h3 h4
    simp only [resolvePath]
    rw [h1, h2, hwd, hunc, h3, h4]
    simp

/-- Claim C9, counterexample: a Windows drive-letter absolute path is not
returned unchanged (nor merely slash-normalized): `C:\Users\x` falls
through the dead drive-letter branch and is resolved against the vault
root. -/
theorem drive_letter_path_not_unchanged :
    resolvePath (("/home/u").toList) (("/vault").toList) (("C:\\Users\\x").toList)
        = (("/vault/C:/Users/x").toList)
    ∧ resolvePath (("/home/u").toList) (("/vault").toList) (("C:\\Users\\x").toList)
        ≠ (("C:\\Users\\x").toList)
    ∧ resolvePath (("/home/u").toList) (("/vault").toList) (("C:\\Users\\x").toList)
        ≠ (("C:/Users/x").toList) :=
  ⟨by decide, by decide, by decide⟩

/-- Witness for `resolve_path_cases`: the home-directory branch at
`~/notes`. -/
theorem resolve_path_cases_witness :
    ((['/'] : Str).isPrefixOf (normSlashes (("~/notes").toList)) = false
      ∧ (['~'] : Str).isPrefixOf (normSlashes (("~/notes").toList)) = true)
    ∧ resolvePath (("/home/u").toList) (("/vault").toList) (("~/notes").toList)
        = homeExpand (("/home/u").toList) ((normSlashes (("~/notes").toList)).drop 1) :=
  ⟨⟨by decide, by decide⟩,
    (resolve_path_cases (("/home/u").toList) (("/vault").toList)
        (("~/notes").toList)).2.2.2.2.2.1
      (by decide) (by decide) (by decide) (by decide)⟩
